import Mathlib

/-!
# File-backed single-producer / single-consumer FIFO (`fifo.c`, `fifo.h`)

A shallow embedding of the queue of `fifo.c` and the properties settled about
it, followed by the text capitalizer of `capitalizer.c`.

Modelling conventions.

* Bytes are natural numbers, files are lists of bytes.  Text streams are the
  byte streams of a POSIX system (`fifo.c` uses `stat` from `<sys/stat.h>`):
  `'\n'` is the single byte 10 and a write past the end of a file fills the
  gap with zero bytes.
* `int` is `Int` reduced into `[-2^31, 2^31)` by `toInt32` after every
  arithmetic operation, `unsigned int` and `uint32_t` are `Nat` below `2^32`;
  the conversion of an `int` operand to `unsigned int` is `toUInt32`.  Signed
  overflow, undefined in C, is modelled as two's-complement wrap-around.
* The world outside the handle is a `FileSys`: the backing file named by
  `fifo->file` and the two pointer files `front.txt` and `rear.txt`; the
  backing file's name is assumed to be neither of the latter two.  Opening a
  pointer file for writing is assumed to succeed.
* The local `elem` of `pop` is not initialised in the source; its initial
  content is the extra argument `elem0` of `pop`.
-/

namespace Fifo

/-! ## Machine integers -/

/-- Conversion of a mathematical integer to a 32-bit `int` (two's complement). -/
def toInt32 (x : Int) : Int := (x + 2147483648) % 4294967296 - 2147483648

/-- Conversion of an integer to a 32-bit `unsigned int`. -/
def toUInt32 (x : Int) : Nat := (x % 4294967296).toNat

/-- The constant `INT_MIN` of `<limits.h>`. -/
def INT_MIN : Int := -2147483648

/-! ## Constants of `fifo.c` -/

/-- The constant of `#define BUFFER_SIZE 40`. -/
def BUFFER_SIZE : Nat := 40

/-- The constant of `#define NUM_HEX_IN_UINT32 32/4`.  It is only used inside
`(NUM_HEX_IN_UINT32+2)`, where its textual expansion `(32/4+2)` has the value
of the parenthesised reading. -/
def NUM_HEX_IN_UINT32 : Nat := 32 / 4

/-! ## The C library functions used by `fifo.c` -/

/-- The predicate `isspace` of `<ctype.h>` in the C locale. -/
def isspace (c : Nat) : Bool := c == 32 || (9 ≤ c && c ≤ 13)

/-- The C string held in a buffer: the bytes before the first NUL. -/
def cstr (buf : List Nat) : List Nat := buf.takeWhile (fun c => c != 0)

/-- The bytes `fgets` stores when at most `n` bytes may be read: it stops after
a line feed, at the end of the file, or when `n` bytes are read. -/
def fgets_chars : Nat → List Nat → List Nat
  | 0, _ => []
  | _, [] => []
  | n + 1, c :: s => if c = 10 then [c] else c :: fgets_chars n s

/-- The call `fgets(buffer, size, stream)` on a stream whose unread bytes are `s`:
`none` is the `NULL` returned when no byte could be read, otherwise the bytes
stored in the buffer and the bytes left unread. -/
def fgets (size : Nat) (s : List Nat) : Option (List Nat × List Nat) :=
  match s with
  | [] => none
  | _ :: _ =>
    let line := fgets_chars (size - 1) s
    some (line, s.drop line.length)

/-- Value of a decimal digit character. -/
def dec_val (c : Nat) : Option Nat :=
  if 48 ≤ c ∧ c ≤ 57 then some (c - 48) else none

/-- The digit loop of `atoi`: accumulate decimal digits, stop at the first
byte that is not one. -/
def atoi_digits : List Nat → Nat → Nat
  | [], acc => acc
  | c :: s, acc =>
    match dec_val c with
    | some d => atoi_digits s (acc * 10 + d)
    | none => acc

/-- The call `atoi(buffer)`: skip white space, take an optional sign, read decimal
digits; text without digits gives 0.  A value outside `int` (undefined in C)
is reduced modulo `2^32`. -/
def atoi (buf : List Nat) : Int :=
  match (cstr buf).dropWhile isspace with
  | [] => 0
  | c :: s =>
    if c = 45 then toInt32 (-(atoi_digits s 0 : Int))
    else if c = 43 then toInt32 (atoi_digits s 0)
    else toInt32 (atoi_digits (c :: s) 0)

/-- Decimal digits of `n`, most significant first; `fuel` bounds the number of
digits (10 are enough for 32 bits). -/
def dec_digits : Nat → Nat → List Nat
  | 0, _ => []
  | fuel + 1, n =>
    if n < 10 then [48 + n] else dec_digits fuel (n / 10) ++ [48 + n % 10]

/-- The text `fprintf(fp, "%d", x)` writes for an `int` `x`. -/
def print_d (x : Int) : List Nat :=
  if x < 0 then 45 :: dec_digits 10 (-x).toNat else dec_digits 10 x.toNat

/-- The uppercase hexadecimal digit character of `d < 16`. -/
def hex_digit (d : Nat) : Nat := if d < 10 then 48 + d else 55 + d

/-- The text `fprintf(fp, "%08X\n", elem)` writes for a `uint32_t` `elem`:
eight zero-padded uppercase hexadecimal digits and a line feed. -/
def print_08X_nl (elem : Nat) : List Nat :=
  [hex_digit (elem / 268435456 % 16), hex_digit (elem / 16777216 % 16),
   hex_digit (elem / 1048576 % 16), hex_digit (elem / 65536 % 16),
   hex_digit (elem / 4096 % 16), hex_digit (elem / 256 % 16),
   hex_digit (elem / 16 % 16), hex_digit (elem % 16), 10]

/-- Value of a hexadecimal digit character (either case). -/
def hex_val (c : Nat) : Option Nat :=
  if 48 ≤ c ∧ c ≤ 57 then some (c - 48)
  else if 65 ≤ c ∧ c ≤ 70 then some (c - 55)
  else if 97 ≤ c ∧ c ≤ 102 then some (c - 87)
  else none

/-- The digit loop of the `%X` conversion: read hexadecimal digits while the
field width `w` allows; `seen` records whether a digit was read. -/
def scan_hex : Nat → List Nat → Nat → Bool → Option Nat
  | 0, _, acc, seen => if seen then some acc else none
  | _ + 1, [], acc, seen => if seen then some acc else none
  | w + 1, c :: s, acc, seen =>
    match hex_val c with
    | some d => scan_hex w s (acc * 16 + d) true
    | none => if seen then some acc else none

/-- The unsigned part of a `%X` input item of width at most `w`: a leading
`0` may be followed by `x` or `X`, which is then skipped (the behaviour of the
GNU C library, where a `0x` without digits converts to 0). -/
def scan_hex_prefixed (w : Nat) (s : List Nat) : Option Nat :=
  match w, s with
  | w + 1, c :: s1 =>
    if c = 48 then
      match w, s1 with
      | w1 + 1, x :: s2 =>
        if x = 120 ∨ x = 88 then scan_hex w1 s2 0 true
        else scan_hex (w1 + 1) (x :: s2) 0 true
      | _, _ => some 0
    else scan_hex (w + 1) (c :: s1) 0 false
  | _, _ => scan_hex w s 0 false

/-- The call `sscanf(buffer, "%08X\n", &elem)` as a function of the buffer and of the
previous content of `elem`; the result is the content of `elem` afterwards.
White space is skipped, then an optionally signed hexadecimal number of at
most 8 characters is converted; when the input does not match, `elem` keeps its
previous content.  The trailing `\n` of the format reads white space only. -/
def sscanf_08X (buf : List Nat) (elem : Nat) : Nat :=
  match (cstr buf).dropWhile isspace with
  | [] => elem
  | c :: s =>
    if c = 45 then
      match scan_hex_prefixed 7 s with
      | some v => toUInt32 (-(v : Int))
      | none => elem
    else if c = 43 then
      match scan_hex_prefixed 7 s with
      | some v => v
      | none => elem
    else
      match scan_hex_prefixed 8 (c :: s) with
      | some v => v
      | none => elem

/-- The content of a file after `bytes` are written at position `pos`: a
position past the end leaves a gap of zero bytes, bytes after the written range
are kept. -/
def write_at (file : List Nat) (pos : Nat) (bytes : List Nat) : List Nat :=
  (file ++ List.replicate (pos - file.length) 0).take pos ++ bytes
    ++ file.drop (pos + bytes.length)

/-! ## Data model (`fifo.h`) -/

/-- The type `access_mode` of `fifo.h`, an enumeration of `PRODUCER` and `CONSUMER`. -/
inductive access_mode where
  | PRODUCER
  | CONSUMER
  deriving DecidableEq, Repr

/-- The type `struct FIFO`.  The fields `file` and `fp` are the name of the backing file
and the stream opened on it; their content is the `backing` file of the
`FileSys`. -/
structure FIFO where
  front : Int
  rear : Int
  size : Int
  capacity : Nat
  mode : access_mode
  deriving DecidableEq, Repr

/-- The files the queue works with.  `path_exists` tells whether `fifo->file`
names a file (what `stat` and `fopen(.., "r")` see); `backing` is the content of
the file the streams `fifo->fp` are opened on; `front_txt` and `rear_txt` are
the contents of `front.txt` and `rear.txt`, `none` when the file is absent. -/
structure FileSys where
  path_exists : Bool
  backing : List Nat
  front_txt : Option (List Nat)
  rear_txt : Option (List Nat)
  deriving DecidableEq, Repr

/-! ## Operations (`fifo.c`) -/

/-- The function `file_exists(filename)` for the backing file. -/
def file_exists (fs : FileSys) : Bool := fs.path_exists

/-- The function `initFIFO(filename, mode, capacity)`: the handle (`none` for `NULL`) and the
file system afterwards.  A producer refuses an existing file and otherwise
creates an empty one; a consumer opens the file for reading. -/
def initFIFO (fs : FileSys) (mode : access_mode) (capacity : Nat) :
    Option FIFO × FileSys :=
  match mode with
  | .PRODUCER =>
    if file_exists fs then (none, fs)
    else (some ⟨0, 0, 0, capacity, .PRODUCER⟩, { fs with path_exists := true, backing := [] })
  | .CONSUMER =>
    if fs.path_exists then (some ⟨0, 0, 0, capacity, .CONSUMER⟩, fs)
    else (none, fs)

/-- The function `is_empty(fifo)`: `fifo->size == 0`. -/
def is_empty (fifo : FIFO) : Bool := fifo.size == 0

/-- The function `is_full(fifo)`: `fifo->size >= fifo->capacity`, compared as
`unsigned int`. -/
def is_full (fifo : FIFO) : Bool := decide (fifo.capacity ≤ toUInt32 fifo.size)

/-- The size recomputed from `rear` and `front` by the refresh step of `push`
and `pop` (lines 88-92 and 137-141): `capacity + (rear - front)` is evaluated
as `unsigned int` and stored into the `int` field. -/
def resize (capacity : Nat) (rear front : Int) : Int :=
  if rear < front then toInt32 (capacity + toUInt32 (toInt32 (rear - front)) : Nat)
  else toInt32 (rear - front)

/-- The refresh step of `push` (lines 79-96): read `front.txt` when it is
there, and when it holds another front than the cached one, take it and
recompute the size. -/
def refresh_front (fifo : FIFO) (fs : FileSys) : FIFO :=
  match fs.front_txt with
  | none => fifo
  | some content =>
    match fgets BUFFER_SIZE content with
    | none => fifo
    | some (buffer, _) =>
      let front := atoi buffer
      if front ≠ fifo.front then
        { fifo with front := front, size := resize fifo.capacity fifo.rear front }
      else fifo

/-- The refresh step of `pop` (lines 127-145), the mirror of `refresh_front`
on `rear.txt`. -/
def refresh_rear (fifo : FIFO) (fs : FileSys) : FIFO :=
  match fs.rear_txt with
  | none => fifo
  | some content =>
    match fgets BUFFER_SIZE content with
    | none => fifo
    | some (buffer, _) =>
      let rear := atoi buffer
      if rear ≠ fifo.rear then
        { fifo with rear := rear, size := resize fifo.capacity rear fifo.front }
      else fifo

/-- The position of the stream after `rewind(fp); fseek(fp, rear*(32/4+2),
SEEK_SET)`: the product is an `int`; a negative offset makes `fseek` fail and
leaves the position at 0. -/
def seek_pos (rear : Int) : Nat :=
  (toInt32 (rear * ((NUM_HEX_IN_UINT32 : Int) + 2))).toNat

/-- The index stored by `i = (i + 1) % fifo->capacity`: the sum is an `int`,
the remainder is taken as `unsigned int` and stored into the `int` field. -/
def advance (i : Int) (capacity : Nat) : Int :=
  toInt32 ((toUInt32 (toInt32 (i + 1)) % capacity : Nat))

/-- The function `push(fifo, elem)`: the returned `int`, the handle and the files
afterwards. -/
def push (fifo : FIFO) (elem : Nat) (fs : FileSys) : Int × FIFO × FileSys :=
  if fifo.mode = .CONSUMER then (-1, fifo, fs)
  else
    let fifo1 := refresh_front fifo fs
    if is_full fifo1 then (-1, fifo1, fs)
    else
      let backing := write_at fs.backing (seek_pos fifo1.rear) (print_08X_nl (elem % 4294967296))
      let rear := advance fifo1.rear fifo1.capacity
      let fifo2 := { fifo1 with rear := rear, size := toInt32 (fifo1.size + 1) }
      (0, fifo2, { fs with backing := backing, rear_txt := some (print_d rear) })

/-- The reading loop of `pop` (lines 150-160) on a stream whose unread bytes
are `s`: lines are read one at a time, the line whose number `i` equals `front`
is converted into `elem`; the result is the content of `elem` after the loop.
Each `fgets` that succeeds reads at least one byte, so `fuel = s.length`
never runs out before the stream does. -/
def read_loop : Nat → List Nat → Int → Int → Nat → Nat
  | 0, _, _, _, elem => elem
  | fuel + 1, s, i, front, elem =>
    match fgets BUFFER_SIZE s with
    | none => elem
    | some (buffer, rest) =>
      if i = front then sscanf_08X buffer elem
      else read_loop fuel rest (toInt32 (i + 1)) front elem

/-- The content of `elem` after `rewind(fifo->fp)` and the reading loop. -/
def read_elem (backing : List Nat) (front : Int) (elem0 : Nat) : Nat :=
  read_loop backing.length backing 0 front elem0

/-- The function `pop(fifo)`: the returned `int`, the handle and the files afterwards;
`elem0` is the content of the uninitialised local `elem`, a `uint32_t`; the
returned value is `elem` converted to `int`. -/
def pop (fifo : FIFO) (elem0 : Nat) (fs : FileSys) : Int × FIFO × FileSys :=
  if fifo.mode = .PRODUCER then (INT_MIN, fifo, fs)
  else
    let fifo1 := refresh_rear fifo fs
    if is_empty fifo1 then (INT_MIN, fifo1, fs)
    else
      let elem := read_elem fs.backing fifo1.front elem0
      let front := advance fifo1.front fifo1.capacity
      let fifo2 := { fifo1 with front := front, size := toInt32 (fifo1.size - 1) }
      (toInt32 elem, fifo2, { fs with front_txt := some (print_d front) })

/-! ## Sequences of calls and the two-process system -/

/-- The calls `push(fifo, v)` for the values `v` of a list, one after the
other on the same handle: the returned values in order, the handle and the
files after the last call. -/
def push_all (fifo : FIFO) (fs : FileSys) : List Nat → List Int × FIFO × FileSys
  | [] => ([], fifo, fs)
  | v :: vs =>
    let r := push fifo v fs
    let rs := push_all r.2.1 r.2.2 vs
    (r.1 :: rs.1, rs.2)

/-- As many calls `pop(fifo)` as the list has entries, one after the other on
the same handle; the entries are the contents of the uninitialised local
`elem` at each call. -/
def pop_all (fifo : FIFO) (fs : FileSys) : List Nat → List Int × FIFO × FileSys
  | [] => ([], fifo, fs)
  | e :: es =>
    let r := pop fifo e fs
    let rs := pop_all r.2.1 r.2.2 es
    (r.1 :: rs.1, rs.2)

/-- A producer process and a consumer process with the files they share. -/
structure Sys where
  producer : FIFO
  consumer : FIFO
  fs : FileSys
  deriving DecidableEq, Repr

/-- The state of a producer that has made `m` successful calls of `push` and
has seen no `front.txt`. -/
def ProducerAfter (c m : Nat) (f : FIFO) (fs : FileSys) : Prop :=
  f.mode = .PRODUCER ∧ f.capacity = c ∧ fs.front_txt = none ∧
    f.front = 0 ∧ f.size = toInt32 m ∧ f.rear = toInt32 ((m % c : Nat))

/-- A path that names no file, with no pointer file present. -/
def fresh_fs : FileSys := ⟨false, [], none, none⟩

/-- The run in which a freshly initialised producer pushes the values `vs` and
a consumer initialised afterwards on the same path with the same capacity calls
`pop` once for each entry of `es`: the values returned by the pushes, the
values returned by the pops, and the state at the end. -/
def run_push_then_pop (c : Nat) (vs es : List Nat) : Option (List Int × List Int × Sys) :=
  match initFIFO fresh_fs .PRODUCER c with
  | (none, _) => none
  | (some p, fs1) =>
    let r := push_all p fs1 vs
    match initFIFO r.2.2 .CONSUMER c with
    | (none, _) => none
    | (some q, fs2) =>
      let t := pop_all q fs2 es
      some (r.1, t.1, ⟨r.2.1, t.2.1, t.2.2⟩)

/-- The function `closeFIFO(fifo)`: the files afterwards.  The stream is
closed, a consumer removes `front.txt`, a producer removes `rear.txt`, then the
backing file is removed; `remove` of an absent file changes nothing.  Streams
other processes still hold keep the content `backing`. -/
def closeFIFO (fifo : FIFO) (fs : FileSys) : FileSys :=
  let fs1 := if fifo.mode = .CONSUMER then { fs with front_txt := none } else fs
  let fs2 := if fifo.mode = .PRODUCER then { fs1 with rear_txt := none } else fs1
  { fs2 with path_exists := false }

/-- The buffer the reading loop of `pop` (lines 150-160) hands to `sscanf`:
the line whose number `i` equals `front`, `none` when the stream ends before
that line. -/
def scan_line : Nat → List Nat → Int → Int → Option (List Nat)
  | 0, _, _, _ => none
  | fuel + 1, s, i, front =>
    match fgets BUFFER_SIZE s with
    | none => none
    | some (buffer, rest) =>
      if i = front then some buffer
      else scan_line fuel rest (toInt32 (i + 1)) front

/-- Direct addressing as the specification words it: the record of slot
`front` is the `width` bytes at byte offset `front × width` of the backing
file. -/
def spec_direct_record (backing : List Nat) (front width : Nat) : List Nat :=
  (backing.drop (front * width)).take width

/-- The specification's notion of a pointer file that parses as a decimal
integer, read the way `atoi` reads: optional white space, an optional sign,
then at least one decimal digit. -/
def parses_as_decimal (content : List Nat) : Bool :=
  match content.dropWhile isspace with
  | [] => false
  | c :: t =>
    if c = 45 ∨ c = 43 then
      match t with
      | [] => false
      | d :: _ => (dec_val d).isSome
    else (dec_val c).isSome

end Fifo

/-! ## The capitalizer (`capitalizer.c`) -/

namespace Capitalizer

/-- The function `toupper` of `<ctype.h>` in the C locale. -/
def toupper (c : Nat) : Nat := if 97 ≤ c ∧ c ≤ 122 then c - 32 else c

/-- The value of `strchr(s, c) != NULL` for a C string `s` and `c` not NUL. -/
def strchr_found (s : List Nat) (c : Nat) : Bool := s.contains c

/-- Whether the C string `s` begins with the C string `p`. -/
def starts_with : List Nat → List Nat → Bool
  | _, [] => true
  | [], _ :: _ => false
  | a :: s, b :: p => a == b && starts_with s p

/-- The value of `strstr(s, p) != NULL`: `p` occurs in `s`. -/
def strstr_found : List Nat → List Nat → Bool
  | [], p => starts_with [] p
  | a :: s, p => starts_with (a :: s) p || strstr_found s p

/-- The function `strsep` defined in `capitalizer.c` (lines 12-21) on the C
string `*sp` points to: `NULL` (here `none`) when that string is empty,
otherwise the token up to the first separator character and the string after
that separator, which is empty when there was none. -/
def strsep (s sep : List Nat) : Option (List Nat) × List Nat :=
  match s with
  | [] => (none, s)
  | _ :: _ =>
    (some (s.takeWhile (fun c => !sep.contains c)),
      (s.dropWhile (fun c => !sep.contains c)).drop 1)

/-- The separator of `#define DELIMITER " "`. -/
def DELIMITER : List Nat := [32]

/-- The table `abbrevs`: `e.g.`, `i.e.`, `a.m.`, `p.m.`, `a.m`, `p.m`,
`etc.`. -/
def abbrevs : List (List Nat) :=
  [[101, 46, 103, 46], [105, 46, 101, 46], [97, 46, 109, 46], [112, 46, 109, 46],
   [97, 46, 109], [112, 46, 109], [101, 116, 99, 46]]

/-- The assignment `s[0] = toupper(s[0])` on a C string; on the empty string
it rewrites the terminating NUL with itself. -/
def upcase_first : List Nat → List Nat
  | [] => []
  | c :: s => toupper c :: s

/-- The punctuation checks of the loop (lines 101-115 and 130-150): whether the
C string `prev` makes the following text start a sentence.  It does when it
holds `!` or `?`, or when it holds exactly one `.` and none of the
abbreviations. -/
def ends_sentence (prev : List Nat) : Bool :=
  (strchr_found prev 33 || strchr_found prev 63) ||
    (strchr_found prev 46 && (prev.count 46 == 1 && !abbrevs.any (strstr_found prev)))

/-- The text written for a token that holds a line feed (lines 95-123): the
first 128 bytes of the token are split at the first line feed, the part after
it is capitalised when the part before it ends a sentence, and the two parts
are joined by a line feed again. -/
def newline_buf (prev : List Nat) : List Nat :=
  let temp0 := prev.take 128
  let inter := temp0.takeWhile (fun c => c != 10)
  let temp := (temp0.dropWhile (fun c => c != 10)).drop 1
  let temp1 := if ends_sentence inter then upcase_first temp else temp
  inter.take 128 ++ [10] ++ temp1.take 128

/-- The loop of `capitalize` (lines 89-165): `prev` and `token` are the two
tokens at hand (`none` for `NULL`), `rest` is the text `input_text` points to,
`out` is what has been written; the result is what has been written when the
loop ends.  Every turn takes a token from `rest`, so `fuel = rest.length + 1`
turns are enough. -/
def cap_loop : Nat → List Nat → Option (List Nat) → List Nat → List Nat → List Nat
  | 0, _, _, _, out => out
  | _ + 1, _, none, _, out => out
  | fuel + 1, prev, some token, rest, out =>
    let token1 :=
      if strchr_found prev 10 then token
      else if ends_sentence prev then upcase_first token else token
    let out1 :=
      if strchr_found prev 10 then out ++ DELIMITER ++ newline_buf prev
      else out ++ DELIMITER ++ prev
    match strsep rest DELIMITER with
    | (none, _) => out1 ++ DELIMITER ++ token1
    | (some next, rest1) => cap_loop fuel token1 (some next) rest1 out1

/-- The function `capitalize(input, output)` as a function of the content of
the input file: the content of the output file when the function returns,
`none` when it dereferences a null pointer instead (`prev` is `NULL` for an
empty text, `token` is `NULL` when the text is a single space).  The two names
are different, both files can be opened and `calloc` succeeds; the text is read
as a C string (up to the first NUL, the byte after the buffer being NUL), and
the calls of `free` have no effect on the files. -/
def capitalize (input : List Nat) : Option (List Nat) :=
  let text := input.takeWhile (fun c => c != 0)
  match strsep text DELIMITER with
  | (none, _) => none
  | (some prev, rest) =>
    match strsep rest DELIMITER with
    | (none, rest1) =>
      match prev with
      | [] => none
      | _ :: _ => some (cap_loop (rest1.length + 1) (upcase_first prev) none rest1 [])
    | (some token, rest1) =>
      match prev with
      | [] => some (cap_loop (rest1.length + 1) prev (some (upcase_first token)) rest1 [])
      | _ :: _ => some (cap_loop (rest1.length + 1) (upcase_first prev) (some token) rest1 [])

end Capitalizer

namespace Fifo

/-! ## Machine-integer facts -/

theorem toUInt32_toInt32_nat (m : Nat) (h : m < 4294967296) :
    toUInt32 (toInt32 m) = m := by
  unfold toInt32 toUInt32; omega

theorem toInt32_succ (x : Int) : toInt32 (toInt32 x + 1) = toInt32 (x + 1) := by
  unfold toInt32; omega

theorem advance_toInt32 (c m : Nat) (hc : 0 < c) (hc32 : c < 4294967296) :
    advance (toInt32 ((m % c : Nat))) c = toInt32 (((m + 1) % c : Nat)) := by
  have hm : m % c < c := Nat.mod_lt _ hc
  have h1 : toUInt32 (toInt32 (toInt32 ((m % c : Nat)) + 1)) = m % c + 1 := by
    unfold toInt32 toUInt32; omega
  unfold advance
  rw [h1, Nat.mod_add_mod]

/-! ## Pushes on a fresh producer -/

theorem push_ProducerAfter_lt (c m : Nat) (f : FIFO) (fs : FileSys) (v : Nat)
    (hc32 : c < 4294967296) (h : ProducerAfter c m f fs) (hm : m < c) :
    (push f v fs).1 = 0 ∧ ProducerAfter c (m + 1) (push f v fs).2.1 (push f v fs).2.2 := by
  obtain ⟨hmode, hcap, hfront, hf0, hsize, hrear⟩ := h
  have hc : 0 < c := by omega
  have hnf : is_full f = false := by
    unfold is_full
    rw [hsize, toUInt32_toInt32_nat m (by omega), hcap]
    simpa using hm
  have hadv := advance_toInt32 c m hc hc32
  simp only [push, hmode, refresh_front, hfront, hnf]
  refine ⟨by simp, ?_⟩
  refine ⟨by simp [hmode], by simp [hcap], by simp [hfront], by simp [hf0], ?_, ?_⟩
  · simp only [reduceCtorEq, if_false, Bool.false_eq_true]
    rw [hsize]
    have := toInt32_succ (m : Int)
    push_cast
    exact this
  · simp only [reduceCtorEq, if_false, Bool.false_eq_true]
    rw [hrear, hcap]
    exact hadv

theorem push_ProducerAfter_full (c m : Nat) (f : FIFO) (fs : FileSys) (v : Nat)
    (hc32 : c < 4294967296) (h : ProducerAfter c m f fs) (hm : m = c) :
    push f v fs = (-1, f, fs) := by
  obtain ⟨hmode, hcap, hfront, -, hsize, -⟩ := h
  have hfull : is_full f = true := by
    unfold is_full
    rw [hsize, toUInt32_toInt32_nat m (by omega), hcap]
    simpa using hm.ge
  simp [push, hmode, refresh_front, hfront, hfull]

theorem push_all_ProducerAfter (c : Nat) (hc32 : c < 4294967296) (vs : List Nat) :
    ∀ (m : Nat) (f : FIFO) (fs : FileSys), ProducerAfter c m f fs → m ≤ c →
      ProducerAfter c (min (m + vs.length) c) (push_all f fs vs).2.1 (push_all f fs vs).2.2 := by
  induction vs with
  | nil =>
    intro m f fs h hm
    simpa [push_all, Nat.min_eq_left hm] using h
  | cons v vs ih =>
    intro m f fs h hm
    rcases Nat.lt_or_ge m c with hlt | hge
    · have hstep := (push_ProducerAfter_lt c m f fs v hc32 h hlt).2
      have := ih (m + 1) _ _ hstep hlt
      simpa [push_all, Nat.add_assoc, Nat.add_comm 1] using this
    · have hmc : m = c := by omega
      have hstep := push_ProducerAfter_full c m f fs v hc32 h hmc
      have := ih m f fs h hm
      have e : min (m + (vs.length + 1)) c = min (m + vs.length) c := by omega
      simpa [push_all, hstep, e] using this

theorem initFIFO_producer_fresh (c : Nat) (fs fs1 : FileSys) (f : FIFO)
    (h : initFIFO fs .PRODUCER c = (some f, fs1)) :
    f = ⟨0, 0, 0, c, .PRODUCER⟩ ∧ fs1 = { fs with path_exists := true, backing := [] } := by
  unfold initFIFO at h
  simp only at h
  split at h
  · simp at h
  · simp only [Prod.mk.injEq, Option.some.injEq] at h
    exact ⟨h.1.symm, h.2.symm⟩

theorem ProducerAfter_init (c : Nat) (fs fs1 : FileSys) (f : FIFO)
    (hfront : fs.front_txt = none) (h : initFIFO fs .PRODUCER c = (some f, fs1)) :
    ProducerAfter c 0 f fs1 := by
  obtain ⟨rfl, rfl⟩ := initFIFO_producer_fresh c fs fs1 f h
  refine ⟨rfl, rfl, hfront, rfl, ?_, ?_⟩
  · simp [toInt32]
  · simp [toInt32]

/-! ## The record codec -/

theorem hex_val_hex_digit (d : Nat) (h : d < 16) : hex_val (hex_digit d) = some d := by
  interval_cases d <;> rfl

theorem hex_digit_range (d : Nat) (h : d < 16) :
    (48 ≤ hex_digit d ∧ hex_digit d ≤ 57) ∨ (65 ≤ hex_digit d ∧ hex_digit d ≤ 70) := by
  unfold hex_digit; split <;> omega

theorem scan_hex_digits (ds : List Nat) :
    ∀ (w acc : Nat) (seen : Bool), ds.length ≤ w → (∀ d ∈ ds, d < 16) →
      (seen = true ∨ ds ≠ []) →
      scan_hex w (ds.map hex_digit ++ [10]) acc seen
        = some (ds.foldl (fun a d => a * 16 + d) acc) := by
  induction ds with
  | nil =>
    intro w acc seen _ _ hs
    have hseen : seen = true := by simpa using hs
    subst hseen
    cases w <;> simp [scan_hex, hex_val]
  | cons d ds ih =>
    intro w acc seen hw hd _
    cases w with
    | zero => simp at hw
    | succ w =>
      have hv := hex_val_hex_digit d (hd d (by simp))
      simp only [List.map_cons, List.cons_append, scan_hex, hv, List.foldl_cons]
      exact ih w _ true (by simpa using hw) (fun x hx => hd x (by simp [hx])) (Or.inl rfl)

theorem sscanf_record (ds : List Nat) (d : Nat) (hlen : ds.length = 7) (hd : d < 16)
    (hds : ∀ x ∈ ds, x < 16) (e : Nat) :
    sscanf_08X ((d :: ds).map hex_digit ++ [10]) e
      = (d :: ds).foldl (fun a x => a * 16 + x) 0 := by
  have hr := hex_digit_range d hd
  have hcstr : cstr ((d :: ds).map hex_digit ++ [10]) = (d :: ds).map hex_digit ++ [10] := by
    unfold cstr
    rw [List.takeWhile_eq_self_iff]
    intro x hx
    simp only [List.mem_append, List.mem_map, List.mem_singleton] at hx
    rcases hx with ⟨y, hy, rfl⟩ | rfl
    · have hy16 : y < 16 := by
        rcases List.mem_cons.mp hy with rfl | h
        · exact hd
        · exact hds y h
      have := hex_digit_range y hy16
      simp; omega
    · simp
  have hnsp : isspace (hex_digit d) = false := by
    unfold isspace; simp; omega
  unfold sscanf_08X
  rw [hcstr]
  simp only [List.map_cons, List.cons_append, List.dropWhile_cons, hnsp]
  simp only [Bool.false_eq_true, if_false]
  rw [if_neg (by omega), if_neg (by omega)]
  have hscan : scan_hex_prefixed 8 (hex_digit d :: (ds.map hex_digit ++ [10]))
      = some ((d :: ds).foldl (fun a x => a * 16 + x) 0) := by
    unfold scan_hex_prefixed
    simp only
    by_cases h48 : hex_digit d = 48
    · have hd0 : d = 0 := by
        have hv := hex_val_hex_digit d hd
        rw [h48] at hv
        simpa [hex_val] using hv.symm
      subst hd0
      rw [if_pos h48]
      cases ds with
      | nil => simp at hlen
      | cons y ds1 =>
        have hy : y < 16 := hds y (by simp)
        have hry := hex_digit_range y hy
        simp only [List.map_cons, List.cons_append]
        rw [if_neg (by omega)]
        have := scan_hex_digits (y :: ds1) 7 0 true (by simp [hlen]) hds (Or.inl rfl)
        simpa using this
    · rw [if_neg h48]
      have := scan_hex_digits (d :: ds) 8 0 false (by simp [hlen])
        (by
          intro x hx
          rcases List.mem_cons.mp hx with rfl | h
          · exact hd
          · exact hds x h) (Or.inr (by simp))
      simpa using this
  rw [hscan]

theorem print_08X_nl_eq (v : Nat) :
    print_08X_nl v = ([v / 268435456 % 16, v / 16777216 % 16, v / 1048576 % 16,
      v / 65536 % 16, v / 4096 % 16, v / 256 % 16, v / 16 % 16, v % 16].map hex_digit) ++ [10] := rfl

theorem sscanf_print (v e : Nat) (hv : v < 4294967296) : sscanf_08X (print_08X_nl v) e = v := by
  rw [print_08X_nl_eq, sscanf_record _ _ (by simp) (Nat.mod_lt _ (by decide))
    (by intro x hx; simp at hx; omega)]
  simp only [List.foldl_cons, List.foldl_nil]
  omega


/-! ## Frame facts of the refresh steps -/

theorem refresh_front_rear (f : FIFO) (fs : FileSys) : (refresh_front f fs).rear = f.rear := by
  unfold refresh_front
  split
  · rfl
  · split
    · rfl
    · simp only
      split <;> rfl

theorem refresh_rear_front (f : FIFO) (fs : FileSys) : (refresh_rear f fs).front = f.front := by
  unfold refresh_rear
  split
  · rfl
  · split
    · rfl
    · simp only
      split <;> rfl

theorem refresh_front_capacity (f : FIFO) (fs : FileSys) :
    (refresh_front f fs).capacity = f.capacity := by
  unfold refresh_front
  split
  · rfl
  · split
    · rfl
    · simp only
      split <;> rfl

theorem pop_consumer_eq (f : FIFO) (e : Nat) (fs : FileSys) (f1 : FIFO) (x : Nat)
    (hmode : f.mode = .CONSUMER) (hf1 : refresh_rear f fs = f1) (hne : is_empty f1 = false)
    (hx : read_elem fs.backing f1.front e = x) :
    pop f e fs = (toInt32 x,
      { f1 with front := advance f1.front f1.capacity, size := toInt32 (f1.size - 1) },
      { fs with front_txt := some (print_d (advance f1.front f1.capacity)) }) := by
  simp [pop, hmode, hf1, hne, hx]

/-! ## Range of the value read by `pop` -/

theorem resize_eq (c : Nat) (rear front : Int) (hc : c ≤ 2147483647)
    (hr0 : 0 ≤ rear) (hr : rear < c) (hf0 : 0 ≤ front) (hf : front < c) :
    resize c rear front = if rear < front then (c : Int) + (rear - front) else rear - front := by
  unfold resize toInt32 toUInt32
  split
  · push_cast
    omega
  · omega

theorem parses_as_decimal_of_prefix (p : List Nat) :
    ∀ r : List Nat, parses_as_decimal p = true → parses_as_decimal (p ++ r) = true := by
  induction p with
  | nil => intro r h; simp [parses_as_decimal] at h
  | cons a p ih =>
    intro r h
    by_cases hsp : isspace a = true
    · have e1 : parses_as_decimal (a :: p) = parses_as_decimal p := by
        simp [parses_as_decimal, List.dropWhile_cons, hsp]
      have e2 : parses_as_decimal (a :: p ++ r) = parses_as_decimal (p ++ r) := by
        simp [parses_as_decimal, List.dropWhile_cons, hsp]
      rw [e2]
      rw [e1] at h
      exact ih r h
    · have hsp' : isspace a = false := by simpa using hsp
      simp only [parses_as_decimal, List.cons_append, List.dropWhile_cons, hsp',
        Bool.false_eq_true, if_false] at h ⊢
      split at h
      · rename_i hsign
        rw [if_pos hsign]
        cases p with
        | nil => simp at h
        | cons d p' => simpa using h
      · rename_i hsign
        rw [if_neg hsign]
        exact h

theorem atoi_digits_of_not_digit (s : List Nat)
    (h : ∀ d t, s = d :: t → (dec_val d).isSome = false) : atoi_digits s 0 = 0 := by
  cases s with
  | nil => rfl
  | cons d t =>
    have := h d t rfl
    cases hd : dec_val d with
    | none => simp [atoi_digits, hd]
    | some x => rw [hd] at this; simp at this

theorem atoi_of_not_decimal (buf : List Nat) (h : parses_as_decimal (cstr buf) = false) :
    atoi buf = 0 := by
  unfold atoi
  unfold parses_as_decimal at h
  split
  · rfl
  · rename_i c s heq
    rw [heq] at h
    simp only at h
    have hz : toInt32 0 = 0 := by decide
    by_cases h45 : c = 45
    · rw [if_pos h45]
      rw [if_pos (Or.inl h45)] at h
      have : atoi_digits s 0 = 0 := by
        apply atoi_digits_of_not_digit
        intro d t hs
        rw [hs] at h
        simpa using h
      rw [this]
      exact hz
    · rw [if_neg h45]
      by_cases h43 : c = 43
      · rw [if_pos h43]
        rw [if_pos (Or.inr h43)] at h
        have : atoi_digits s 0 = 0 := by
          apply atoi_digits_of_not_digit
          intro d t hs
          rw [hs] at h
          simpa using h
        rw [this]
        exact hz
      · rw [if_neg h43]
        rw [if_neg (by rintro (h1 | h1) <;> contradiction)] at h
        have : atoi_digits (c :: s) 0 = 0 := by
          apply atoi_digits_of_not_digit
          intro d t hs
          obtain ⟨rfl, -⟩ := List.cons.inj hs
          simpa using h
        rw [this]
        exact hz

theorem fgets_chars_prefix (n : Nat) : ∀ s : List Nat, ∃ r, s = fgets_chars n s ++ r := by
  induction n with
  | zero => intro s; exact ⟨s, by simp [fgets_chars]⟩
  | succ n ih =>
    intro s
    cases s with
    | nil => exact ⟨[], by simp [fgets_chars]⟩
    | cons c s =>
      by_cases hc : c = 10
      · exact ⟨s, by simp [fgets_chars, hc]⟩
      · obtain ⟨r, hr⟩ := ih s
        refine ⟨r, ?_⟩
        simp only [fgets_chars, if_neg hc, List.cons_append]
        rw [← hr]

theorem atoi_fgets_of_not_decimal (content buffer rest : List Nat)
    (h : parses_as_decimal content = false)
    (hfg : fgets BUFFER_SIZE content = some (buffer, rest)) : atoi buffer = 0 := by
  apply atoi_of_not_decimal
  have hb : ∃ r, content = buffer ++ r := by
    unfold fgets at hfg
    split at hfg
    · simp at hfg
    · simp only [Option.some.injEq, Prod.mk.injEq] at hfg
      rw [← hfg.1]
      exact fgets_chars_prefix _ _
  obtain ⟨r, hr⟩ := hb
  have hc : buffer = cstr buffer ++ buffer.dropWhile (fun c => c != 0) := by
    unfold cstr
    exact (List.takeWhile_append_dropWhile _ _).symm
  by_contra hp
  have hp' : parses_as_decimal (cstr buffer) = true := by simpa using hp
  have h1 := parses_as_decimal_of_prefix (cstr buffer) (buffer.dropWhile (fun c => c != 0)) hp'
  rw [← hc] at h1
  have h2 := parses_as_decimal_of_prefix buffer r h1
  rw [← hr, h] at h2
  simp at h2

/-! ## The scan of `pop` and the bytes `push` leaves alone -/

theorem read_loop_eq_scan_line (fuel : Nat) :
    ∀ (s : List Nat) (i front : Int) (e : Nat),
      read_loop fuel s i front e
        = match scan_line fuel s i front with
          | some buffer => sscanf_08X buffer e
          | none => e := by
  induction fuel with
  | zero => intro s i front e; rfl
  | succ fuel ih =>
    intro s i front e
    unfold read_loop scan_line
    cases hfg : fgets BUFFER_SIZE s with
    | none => rfl
    | some br =>
      obtain ⟨buffer, rest⟩ := br
      simp only
      by_cases hi : i = front
      · rw [if_pos hi, if_pos hi]
      · rw [if_neg hi, if_neg hi]
        exact ih _ _ _ _

/-- C1: with capacity 1, after a fresh producer has pushed the value 10, the
first `pop` of a fresh consumer returns `INT_MIN` whatever the stack held, not
10: the published `rear` is 0 again and the consumer takes the full queue for an
empty one. -/
theorem pop_after_filling_returns_sentinel :
    ∀ e : Nat, (run_push_then_pop 1 [10] [e]).map (fun r => (r.1, r.2.1))
      = some ([0], [INT_MIN]) := by
  intro e
  rfl

/-- C2: with capacity 5, after a fresh producer has pushed 10, 20 and 30, the
pops of a fresh consumer return 10, then twice the content `elem` happened to
have (the records of slots 1 and 2 are not read), then `INT_MIN`. -/
theorem pop_second_record_unread :
    ∀ e1 e2 e3 e4 : Nat, (run_push_then_pop 5 [10, 20, 30] [e1, e2, e3, e4]).map (fun r => r.2.1)
      = some [10, toInt32 e2, toInt32 e3, INT_MIN] := by
  intro e1 e2 e3 e4
  have hinit : initFIFO fresh_fs .PRODUCER 5
      = (some ⟨0, 0, 0, 5, .PRODUCER⟩, ⟨true, [], none, none⟩) := rfl
  have hpush : push_all ⟨0, 0, 0, 5, .PRODUCER⟩ ⟨true, [], none, none⟩ [10, 20, 30]
      = ([0, 0, 0], ⟨0, 3, 3, 5, .PRODUCER⟩,
          ⟨true, print_08X_nl 10 ++ [0] ++ print_08X_nl 20 ++ [0] ++ print_08X_nl 30, none,
            some [51]⟩) := by decide
  have h1 := pop_consumer_eq ⟨0, 0, 0, 5, .CONSUMER⟩ e1
      ⟨true, print_08X_nl 10 ++ [0] ++ print_08X_nl 20 ++ [0] ++ print_08X_nl 30, none, some [51]⟩
      ⟨0, 3, 3, 5, .CONSUMER⟩ 10 rfl (by decide) (by decide) (by rfl)
  have h2 := pop_consumer_eq ⟨1, 3, 2, 5, .CONSUMER⟩ e2
      ⟨true, print_08X_nl 10 ++ [0] ++ print_08X_nl 20 ++ [0] ++ print_08X_nl 30, some [49],
        some [51]⟩ ⟨1, 3, 2, 5, .CONSUMER⟩ e2 rfl (by decide) (by decide) (by rfl)
  have h3 := pop_consumer_eq ⟨2, 3, 1, 5, .CONSUMER⟩ e3
      ⟨true, print_08X_nl 10 ++ [0] ++ print_08X_nl 20 ++ [0] ++ print_08X_nl 30, some [50],
        some [51]⟩ ⟨2, 3, 1, 5, .CONSUMER⟩ e3 rfl (by decide) (by decide) (by rfl)
  have h4 : pop ⟨3, 3, 0, 5, .CONSUMER⟩ e4
      ⟨true, print_08X_nl 10 ++ [0] ++ print_08X_nl 20 ++ [0] ++ print_08X_nl 30, some [51],
        some [51]⟩
      = (INT_MIN, ⟨3, 3, 0, 5, .CONSUMER⟩,
          ⟨true, print_08X_nl 10 ++ [0] ++ print_08X_nl 20 ++ [0] ++ print_08X_nl 30, some [51],
            some [51]⟩) := rfl
  have a1 : advance 0 5 = 1 := by decide
  have a2 : advance 1 5 = 2 := by decide
  have a3 : advance 2 5 = 3 := by decide
  have p1 : print_d 1 = [49] := by decide
  have p2 : print_d 2 = [50] := by decide
  have p3 : print_d 3 = [51] := by decide
  have t1 : toInt32 (3 - 1) = 2 := by decide
  have t2 : toInt32 (2 - 1) = 1 := by decide
  have t3 : toInt32 (1 - 1) = 0 := by decide
  have t10 : toInt32 ((10 : Nat) : Int) = 10 := by decide
  simp only [a1, a2, a3, p1, p2, p3, t1, t2, t3] at h1 h2 h3
  have hinit2 : initFIFO
      ⟨true, print_08X_nl 10 ++ [0] ++ print_08X_nl 20 ++ [0] ++ print_08X_nl 30, none, some [51]⟩
      .CONSUMER 5
      = (some ⟨0, 0, 0, 5, .CONSUMER⟩,
          ⟨true, print_08X_nl 10 ++ [0] ++ print_08X_nl 20 ++ [0] ++ print_08X_nl 30, none,
            some [51]⟩) := rfl
  simp only [run_push_then_pop, hinit, hpush, hinit2, pop_all, h1, h2, h3, h4, t10, Option.map_some']

/-- C3: on a freshly initialised producer handle with no `front.txt` present,
the call of `push` that follows `n` earlier calls returns 0 when `n` is below
the capacity and -1 otherwise; a rejected call leaves `rear`, `size`, the
backing file and `rear.txt` as they were. -/
theorem push_fresh_returns (c : Nat) (hc32 : c < 4294967296)
    (fs fs1 : FileSys) (f : FIFO) (hfront : fs.front_txt = none)
    (hinit : initFIFO fs .PRODUCER c = (some f, fs1)) (vs : List Nat) (v : Nat) :
    (vs.length < c → (push (push_all f fs1 vs).2.1 v (push_all f fs1 vs).2.2).1 = 0) ∧
    (c ≤ vs.length →
      (push (push_all f fs1 vs).2.1 v (push_all f fs1 vs).2.2).1 = -1 ∧
      (push (push_all f fs1 vs).2.1 v (push_all f fs1 vs).2.2).2.1.rear
        = (push_all f fs1 vs).2.1.rear ∧
      (push (push_all f fs1 vs).2.1 v (push_all f fs1 vs).2.2).2.1.size
        = (push_all f fs1 vs).2.1.size ∧
      (push (push_all f fs1 vs).2.1 v (push_all f fs1 vs).2.2).2.2.backing
        = (push_all f fs1 vs).2.2.backing ∧
      (push (push_all f fs1 vs).2.1 v (push_all f fs1 vs).2.2).2.2.rear_txt
        = (push_all f fs1 vs).2.2.rear_txt) := by
  have h0 := ProducerAfter_init c fs fs1 f hfront hinit
  have hn := push_all_ProducerAfter c hc32 vs 0 f fs1 h0 (Nat.zero_le _)
  rw [Nat.zero_add] at hn
  constructor
  · intro hlt
    rw [Nat.min_eq_left (Nat.le_of_lt hlt)] at hn
    exact (push_ProducerAfter_lt c _ _ _ v hc32 hn hlt).1
  · intro hge
    rw [Nat.min_eq_right hge] at hn
    rw [push_ProducerAfter_full c c _ _ v hc32 hn rfl]
    simp

/-- Witness of `push_fresh_returns`: capacity 2, two earlier calls. -/
theorem push_fresh_returns_witness :
    (push (push_all ⟨0, 0, 0, 2, .PRODUCER⟩ ⟨true, [], none, none⟩ [10, 20]).2.1 30
        (push_all ⟨0, 0, 0, 2, .PRODUCER⟩ ⟨true, [], none, none⟩ [10, 20]).2.2).1 = -1 :=
  ((push_fresh_returns 2 (by decide) ⟨false, [], none, none⟩
    ⟨true, [], none, none⟩ ⟨0, 0, 0, 2, .PRODUCER⟩ rfl rfl [10, 20] 30).2 (by decide)).1

/-- C6: on a producer handle with `rear = 1` a successful `push` writes its
9-byte record at byte offset 10, not 9: the byte at offset 9 is a zero byte
that belongs to no record. -/
theorem push_writes_at_stride_ten :
    (push ⟨0, 1, 1, 5, .PRODUCER⟩ 20 ⟨true, print_08X_nl 10, none, some (print_d 1)⟩).1 = 0 ∧
    (push ⟨0, 1, 1, 5, .PRODUCER⟩ 20 ⟨true, print_08X_nl 10, none, some (print_d 1)⟩).2.2.backing
      = print_08X_nl 10 ++ [0] ++ print_08X_nl 20 ∧
    ((push ⟨0, 1, 1, 5, .PRODUCER⟩ 20
        ⟨true, print_08X_nl 10, none, some (print_d 1)⟩).2.2.backing.drop (1 * 9)).take 9
      ≠ print_08X_nl 20 := by
  decide

/-- C7: the record `push` writes for a 32-bit value `v` has 9 bytes, the first
8 are uppercase hexadecimal digits whose base-16 value is `v` (zero-padded), the
last is a line feed, and the conversion `pop` applies to it gives `v` back. -/
theorem record_roundtrip (v : Nat) (hv : v < 4294967296) :
    (∀ (f : FIFO) (fs : FileSys), f.mode = .PRODUCER → is_full (refresh_front f fs) = false →
      (push f v fs).2.2.backing
        = write_at fs.backing (seek_pos (refresh_front f fs).rear) (print_08X_nl v)) ∧
    (print_08X_nl v).length = 9 ∧
    (∀ c ∈ (print_08X_nl v).take 8, (48 ≤ c ∧ c ≤ 57) ∨ (65 ≤ c ∧ c ≤ 70)) ∧
    ((print_08X_nl v).take 8).foldl (fun a c => a * 16 + (hex_val c).getD 0) 0 = v ∧
    (print_08X_nl v).drop 8 = [10] ∧
    (∀ e : Nat, sscanf_08X (print_08X_nl v) e = v) := by
  refine ⟨?_, rfl, ?_, ?_, rfl, fun e => sscanf_print v e hv⟩
  · intro f fs hmode hfull
    simp [push, hmode, hfull, Nat.mod_eq_of_lt hv]
  · intro c hc
    rw [print_08X_nl_eq] at hc
    simp only [List.map_cons, List.map_nil, List.cons_append, List.nil_append, List.take_succ_cons,
      List.take_zero, List.mem_cons, List.mem_nil_iff, or_false] at hc
    rcases hc with rfl | rfl | rfl | rfl | rfl | rfl | rfl | rfl <;>
      exact hex_digit_range _ (Nat.mod_lt _ (by decide))
  · rw [print_08X_nl_eq]
    simp only [List.map_cons, List.map_nil, List.cons_append, List.nil_append, List.take_succ_cons,
      List.take_zero, List.foldl_cons, List.foldl_nil]
    simp only [hex_val_hex_digit _ (Nat.mod_lt _ (show 0 < 16 by decide)), Option.getD_some]
    omega

/-- Witness of `record_roundtrip`: the value `0xDEADBEEF`. -/
theorem record_roundtrip_witness :
    sscanf_08X (print_08X_nl 3735928559) 0 = 3735928559 :=
  (record_roundtrip 3735928559 (by decide)).2.2.2.2.2 0

/-- C10: a `push` that finds the queue full after the refresh of `front`
returns -1 and leaves `rear` and all files as they were; a `pop` that finds the
queue empty after the refresh of `rear` returns `INT_MIN` and leaves `front`
and all files as they were. -/
theorem rejected_call_changes_nothing (f : FIFO) (fs : FileSys) (v elem0 : Nat)
    (hc32 : f.capacity < 4294967296) :
    (f.mode = .PRODUCER → (refresh_front f fs).size = f.capacity →
      (push f v fs).1 = -1 ∧ (push f v fs).2.1.rear = f.rear ∧ (push f v fs).2.2 = fs) ∧
    (f.mode = .CONSUMER → (refresh_rear f fs).size = 0 →
      (pop f elem0 fs).1 = INT_MIN ∧ (pop f elem0 fs).2.1.front = f.front ∧
        (pop f elem0 fs).2.2 = fs) := by
  constructor
  · intro hmode hsize
    have hfull : is_full (refresh_front f fs) = true := by
      unfold is_full
      rw [hsize, refresh_front_capacity]
      simp only [decide_eq_true_eq]
      unfold toUInt32
      omega
    simp [push, hmode, hfull, refresh_front_rear]
  · intro hmode hsize
    have hempty : is_empty (refresh_rear f fs) = true := by
      unfold is_empty
      simp [hsize]
    simp [pop, hmode, hempty, refresh_rear_front]

/-- Witness of `rejected_call_changes_nothing`: a full producer handle and an
empty consumer handle of capacity 2. -/
theorem rejected_call_changes_nothing_witness :
    (push ⟨0, 0, 2, 2, .PRODUCER⟩ 7 ⟨true, [], none, some [48]⟩).2.2 = ⟨true, [], none, some [48]⟩ ∧
    (pop ⟨0, 0, 0, 2, .CONSUMER⟩ 7 ⟨true, [], none, some [48]⟩).2.2 = ⟨true, [], none, some [48]⟩ :=
  ⟨((rejected_call_changes_nothing ⟨0, 0, 2, 2, .PRODUCER⟩ ⟨true, [], none, some [48]⟩ 7 7
      (by decide)).1 rfl rfl).2.2,
   ((rejected_call_changes_nothing ⟨0, 0, 0, 2, .CONSUMER⟩ ⟨true, [], none, some [48]⟩ 7 7
      (by decide)).2 rfl rfl).2.2⟩

/-- C11: `push` on a consumer handle returns -1 and `pop` on a producer handle
returns `INT_MIN`; the handle and all files are unchanged, and the outcome does
not depend on what the pointer files hold. -/
theorem wrong_role_rejected (f : FIFO) (v e : Nat) (fs : FileSys) :
    (f.mode = .CONSUMER → push f v fs = (-1, f, fs) ∧
      ∀ fs1 : FileSys, (push f v fs1).1 = -1 ∧ (push f v fs1).2.1 = f) ∧
    (f.mode = .PRODUCER → pop f e fs = (INT_MIN, f, fs) ∧
      ∀ fs1 : FileSys, (pop f e fs1).1 = INT_MIN ∧ (pop f e fs1).2.1 = f) := by
  constructor
  · intro h
    exact ⟨by simp [push, h], fun fs1 => by simp [push, h]⟩
  · intro h
    exact ⟨by simp [pop, h], fun fs1 => by simp [pop, h]⟩

/-- Witness of `wrong_role_rejected`: a consumer handle of capacity 5. -/
theorem wrong_role_rejected_witness :
    push ⟨0, 0, 0, 5, .CONSUMER⟩ 7 ⟨true, [], some [49], some [50]⟩
      = (-1, ⟨0, 0, 0, 5, .CONSUMER⟩, ⟨true, [], some [49], some [50]⟩) :=
  ((wrong_role_rejected ⟨0, 0, 0, 5, .CONSUMER⟩ 7 0 ⟨true, [], some [49], some [50]⟩).1 rfl).1

/-- C12: `initFIFO` returns `NULL` and leaves every file as it was for a
producer when the path exists and for a consumer when it does not; a consumer
init never changes the files, so it never creates the backing file. -/
theorem init_failure_changes_nothing (fs : FileSys) (capacity : Nat) :
    (fs.path_exists = true → initFIFO fs .PRODUCER capacity = (none, fs)) ∧
    (fs.path_exists = false → initFIFO fs .CONSUMER capacity = (none, fs)) ∧
    (initFIFO fs .CONSUMER capacity).2 = fs := by
  refine ⟨?_, ?_, ?_⟩
  · intro h
    simp [initFIFO, file_exists, h]
  · intro h
    simp [initFIFO, h]
  · unfold initFIFO
    simp only
    split <;> rfl

/-- Witness of `init_failure_changes_nothing`: a producer on an existing file
with content and both pointer files present. -/
theorem init_failure_changes_nothing_witness :
    initFIFO ⟨true, [65, 10], some [49], some [50]⟩ .PRODUCER 5
      = (none, ⟨true, [65, 10], some [49], some [50]⟩) :=
  (init_failure_changes_nothing ⟨true, [65, 10], some [49], some [50]⟩ 5).1 rfl

/-- C14: `closeFIFO` on a producer handle removes `rear.txt` and the backing
file and keeps `front.txt`; on a consumer handle it removes `front.txt` and the
backing file and keeps `rear.txt`; when the backing file or the owned pointer
file is already absent the files afterwards are the same as if it had been
there. -/
theorem close_removes_own_files (f : FIFO) (fs : FileSys) (x : Option (List Nat)) :
    (f.mode = .PRODUCER →
      closeFIFO f fs = { fs with rear_txt := none, path_exists := false } ∧
      closeFIFO f { fs with rear_txt := x } = closeFIFO f fs) ∧
    (f.mode = .CONSUMER →
      closeFIFO f fs = { fs with front_txt := none, path_exists := false } ∧
      closeFIFO f { fs with front_txt := x } = closeFIFO f fs) ∧
    closeFIFO f { fs with path_exists := false } = closeFIFO f fs := by
  refine ⟨?_, ?_, ?_⟩
  · intro h
    simp [closeFIFO, h]
  · intro h
    simp [closeFIFO, h]
  · cases hm : f.mode <;> simp [closeFIFO, hm]

/-- Witness of `close_removes_own_files`: a producer closing when the consumer
has already removed the backing file. -/
theorem close_removes_own_files_witness :
    closeFIFO ⟨0, 1, 1, 5, .PRODUCER⟩ ⟨false, [], some [49], some [49]⟩
      = ⟨false, [], some [49], none⟩ :=
  ((close_removes_own_files ⟨0, 1, 1, 5, .PRODUCER⟩ ⟨false, [], some [49], some [49]⟩
    none).1 rfl).1

/-- C16 (amended): when the peer's pointer file is absent or empty the refresh
step keeps the handle as it is; when it is present, not empty and does not
begin with a decimal number (optional white space, optional sign, a digit), the
refresh step of `push` leaves `front = 0` and that of `pop` leaves `rear = 0`. -/
theorem refresh_unparsable (f : FIFO) (fs : FileSys) :
    (fs.front_txt = none ∨ fs.front_txt = some [] → refresh_front f fs = f) ∧
    (fs.rear_txt = none ∨ fs.rear_txt = some [] → refresh_rear f fs = f) ∧
    (∀ content, fs.front_txt = some content → content ≠ [] →
      parses_as_decimal content = false → (refresh_front f fs).front = 0) ∧
    (∀ content, fs.rear_txt = some content → content ≠ [] →
      parses_as_decimal content = false → (refresh_rear f fs).rear = 0) := by
  refine ⟨?_, ?_, ?_, ?_⟩
  · rintro (h | h) <;> simp [refresh_front, h, fgets]
  · rintro (h | h) <;> simp [refresh_rear, h, fgets]
  · intro content hc hne hp
    unfold refresh_front
    rw [hc]
    simp only
    cases hfg : fgets BUFFER_SIZE content with
    | none =>
      unfold fgets at hfg
      split at hfg
      · exact absurd rfl hne
      · simp at hfg
    | some br =>
      obtain ⟨buffer, rest⟩ := br
      have h0 := atoi_fgets_of_not_decimal content buffer rest hp hfg
      simp only [h0]
      split
      · rfl
      · rename_i hneq
        simp only [ne_eq, Decidable.not_not] at hneq
        exact hneq.symm
  · intro content hc hne hp
    unfold refresh_rear
    rw [hc]
    simp only
    cases hfg : fgets BUFFER_SIZE content with
    | none =>
      unfold fgets at hfg
      split at hfg
      · exact absurd rfl hne
      · simp at hfg
    | some br =>
      obtain ⟨buffer, rest⟩ := br
      have h0 := atoi_fgets_of_not_decimal content buffer rest hp hfg
      simp only [h0]
      split
      · rfl
      · rename_i hneq
        simp only [ne_eq, Decidable.not_not] at hneq
        exact hneq.symm

/-- Witness of `refresh_unparsable`: `front.txt` holds the text `xy`, the
cached front is 3. -/
theorem refresh_unparsable_witness :
    (refresh_front ⟨3, 1, 3, 5, .PRODUCER⟩ ⟨true, [], some [120, 121], none⟩).front = 0 :=
  (refresh_unparsable ⟨3, 1, 3, 5, .PRODUCER⟩ ⟨true, [], some [120, 121], none⟩).2.2.1
    [120, 121] rfl (by decide) (by decide)

/-- C16, as stated, fails for an empty pointer file: it does not parse as a
decimal integer, and the refresh step keeps the cached pointer (3) instead of
setting it to 0. -/
theorem refresh_empty_file_keeps_front :
    parses_as_decimal [] = false ∧
    (refresh_front ⟨3, 1, 3, 5, .PRODUCER⟩ ⟨true, [], some [], none⟩).front = 3 ∧
    (refresh_rear ⟨1, 3, 2, 5, .CONSUMER⟩ ⟨true, [], none, some []⟩).rear = 3 := by
  decide

/-- C17: after a fresh producer of capacity 5 has pushed 10 and 20, the line
the scan of `pop` finds for `front = 1` is a zero byte followed by the record of
20 (10 bytes), the 9 bytes at offset `1 × 9` are a zero byte and 8 digits, and
the scan leaves `elem` as it was although the record of slot 1 decodes to 20. -/
theorem scan_line_differs_from_direct_record :
    push_all ⟨0, 0, 0, 5, .PRODUCER⟩ ⟨true, [], none, none⟩ [10, 20]
      = ([0, 0], ⟨0, 2, 2, 5, .PRODUCER⟩,
          ⟨true, print_08X_nl 10 ++ [0] ++ print_08X_nl 20, none, some (print_d 2)⟩) ∧
    scan_line (print_08X_nl 10 ++ [0] ++ print_08X_nl 20).length
        (print_08X_nl 10 ++ [0] ++ print_08X_nl 20) 0 1
      = some ([0] ++ print_08X_nl 20) ∧
    spec_direct_record (print_08X_nl 10 ++ [0] ++ print_08X_nl 20) 1 9
      = [0] ++ (print_08X_nl 20).take 8 ∧
    (∀ e : Nat, read_elem (print_08X_nl 10 ++ [0] ++ print_08X_nl 20) 1 e = e) ∧
    (∀ e : Nat, sscanf_08X (print_08X_nl 20) e = 20) := by
  refine ⟨by decide, by decide, by decide, fun e => rfl, fun e => rfl⟩

/-- C18: for a capacity that fits an `int` and `front`, `rear` in
`[0, capacity)`, the size the refresh step recomputes with 32-bit mixed
arithmetic is `capacity + (rear - front)` when `rear < front` and
`rear - front` otherwise, which is `(rear - front) mod capacity` and lies in
`[0, capacity - 1]`. -/
theorem resize_is_occupancy (c : Nat) (rear front : Int) (hc0 : 0 < c) (hc : c ≤ 2147483647)
    (hr0 : 0 ≤ rear) (hr : rear < c) (hf0 : 0 ≤ front) (hf : front < c) :
    resize c rear front
      = (if rear < front then (c : Int) + (rear - front) else rear - front) ∧
    resize c rear front = (rear - front) % (c : Int) ∧
    0 ≤ resize c rear front ∧ resize c rear front ≤ (c : Int) - 1 ∧
    (∀ (f : FIFO) (fs : FileSys), f.capacity = c → f.rear = rear →
      (refresh_front f fs).front = front → (refresh_front f fs).front ≠ f.front →
      (refresh_front f fs).size = resize c rear front) ∧
    (∀ (f : FIFO) (fs : FileSys), f.capacity = c → f.front = front →
      (refresh_rear f fs).rear = rear → (refresh_rear f fs).rear ≠ f.rear →
      (refresh_rear f fs).size = resize c rear front) := by
  have h1 := resize_eq c rear front hc hr0 hr hf0 hf
  refine ⟨h1, ?_, ?_, ?_, ?_, ?_⟩
  · rw [h1]
    split
    · rw [← Int.add_emod_self, Int.emod_eq_of_lt (by omega) (by omega)]
      omega
    · rw [Int.emod_eq_of_lt (by omega) (by omega)]
  · rw [h1]; split <;> omega
  · rw [h1]; split <;> omega
  · intro f fs hcap hrear hfront hne
    subst hcap hrear
    revert hfront hne
    unfold refresh_front
    split
    · intro _ hne; exact absurd rfl hne
    · split
      · intro _ hne; exact absurd rfl hne
      · simp only
        split
        · intro hfront _
          have e : front = _ := hfront.symm
          rw [e]
        · intro _ hne; exact absurd rfl hne
  · intro f fs hcap hfront hrear hne
    subst hcap hfront
    revert hrear hne
    unfold refresh_rear
    split
    · intro _ hne; exact absurd rfl hne
    · split
      · intro _ hne; exact absurd rfl hne
      · simp only
        split
        · intro hrear _
          have e : rear = _ := hrear.symm
          rw [e]
        · intro _ hne; exact absurd rfl hne

/-- Witness of `resize_is_occupancy`: capacity 5, `rear = 1`, `front = 3`. -/
theorem resize_is_occupancy_witness : resize 5 1 3 = (1 - 3) % ((5 : Nat) : Int) :=
  (resize_is_occupancy 5 1 3 (by decide) (by decide) (by decide) (by decide) (by decide)
    (by decide)).2.1

end Fifo

namespace Capitalizer

/-- C15: for the input `hello world` (11 bytes) `capitalize` writes
` Hello world` (12 bytes, a space in front), and for the input `hello` it
writes nothing. -/
theorem capitalize_output_differs :
    capitalize [104, 101, 108, 108, 111, 32, 119, 111, 114, 108, 100]
      = some [32, 72, 101, 108, 108, 111, 32, 119, 111, 114, 108, 100] ∧
    capitalize [104, 101, 108, 108, 111] = some [] := by
  decide

end Capitalizer
